import Mathlib

/-!
Verification of the browscap.py User-Agent parser core.

The embedding models the core of `src/browscap.py`:
* the pattern pipeline of `UserAgentParser.load` (lines 58-67): escaping the
  characters `^$()[].-`, replacing `?` by `.` and `*` by `.*?`, wrapping with
  `^...$`, and compiling with Python's `re` module;
* `UserAgentParser.__get_browser_props` (lines 155-173): recursive parent
  resolution with dict overlaying;
* `UserAgentParser.load` (lines 21-72): meta-section removal, leaf (non-parent)
  section computation, and the per-section populate loop;
* `UserAgentParser.__match` (lines 134-152): longest-identifier selection with
  the module-level match cache;
* `UserAgentParser.query`, `UserAgentParser.__check_init`,
  `UserAgentParser.get_all_user_agents` (lines 101-130).

File reading / ConfigParser INI parsing is the external collaborator: the
embedding takes the parsed database as an association list from section name
to raw key-value properties, as the spec's external-interface section states.

Python strings are modelled as Lean `String` (sequences of characters;
Python `len` = `String.length`).  Python dicts are association lists whose
observable behaviour is `List.lookup`; `dict.__setitem__` is `insertA` below.
Unbounded Python recursion is modelled with explicit fuel: CPython aborts a
deeper recursion with `RecursionError` once the default recursion limit
(1000) is exhausted, which the fuel-0 case represents.
-/

namespace Browscap

/-- Raw or resolved properties of one section: Python dict from property name
to value, observed through `List.lookup` (first binding wins). -/
abbrev PropMap := List (String × String)

/-- The parsed browscap database handed over by the ConfigParser collaborator:
section name to raw properties. -/
abbrev Db := List (String × PropMap)

/-- Python `d[k] = v` on an association list: overwrite the binding in place
if the key is present, otherwise append a new binding. -/
def insertA {α : Type} (l : List (String × α)) (k : String) (v : α) :
    List (String × α) :=
  if (l.lookup k).isSome then
    l.map (fun p => if p.1 = k then (k, v) else p)
  else
    l ++ [(k, v)]

/-- `result.update(other)` as used by `__get_browser_props`: the result looks
up `upd` first and falls back to `base`, so bindings of `upd` overshadow
bindings of `base` (children override ancestors). -/
def overlay (base upd : PropMap) : PropMap := upd ++ base

/-! ### The compiled pattern primitives

`load` builds, per leaf section, the regex `^e$` where `e` is the section name
with `^$()[].-` backslash-escaped, then `?` replaced by `.` and `*` by `.*?`.
The primitives that can occur in such a regex are: a literal character, `.`
(any character except a newline, Python `re` without DOTALL), and `.*?`
(zero or more such characters). -/

/-- One primitive of a compiled browscap pattern. -/
inductive Rx
  /-- a literal character (plain or backslash-escaped in the regex text) -/
  | lit (c : Char)
  /-- `.` : exactly one character other than a newline -/
  | any
  /-- `.*?` : zero or more characters other than a newline -/
  | star
deriving DecidableEq, Repr

/-- Python's `$` (non-MULTILINE): the end anchor succeeds at the very end of
the string and also just before a single trailing newline. -/
def endOk : List Char → Bool
  | [] => true
  | [c] => c == '\n'
  | _ => false

/-- Fuelled matcher for a compiled pattern against the remaining input.
One unit of fuel is spent per step; `rxMatch` supplies enough fuel, so the
fuel-0 answer is never reached from the wrapper. -/
def rxMatchF : Nat → List Rx → List Char → Bool
  | 0, _, _ => false
  | _ + 1, [], s => endOk s
  | n + 1, Rx.lit c :: rs, s =>
    match s with
    | [] => false
    | d :: s' => c == d && rxMatchF n rs s'
  | n + 1, Rx.any :: rs, s =>
    match s with
    | [] => false
    | d :: s' => d != '\n' && rxMatchF n rs s'
  | n + 1, Rx.star :: rs, s =>
    rxMatchF n rs s ||
      match s with
      | [] => false
      | d :: s' => d != '\n' && rxMatchF n (Rx.star :: rs) s'

/-- `compiled.match(input)` restricted to a full (anchored) match: every step
of `rxMatchF` removes a pattern element or an input character, so this fuel
is sufficient. -/
def rxMatch (rs : List Rx) (s : List Char) : Bool :=
  rxMatchF (rs.length + s.length + 1) rs s

/-! ### The pattern pipeline of `load` (lines 58-67) -/

/-- The characters escaped by `load`: `list("^$()[].-")`. -/
def escapedChars : List Char := ['^', '$', '(', ')', '[', ']', '.', '-']

/-- Python `s.replace(c, r)` for a one-character needle: every occurrence of
`c` is replaced by `r` in a single left-to-right pass. -/
def replaceChar (c : Char) (r : List Char) (s : List Char) : List Char :=
  s.flatMap (fun d => if d = c then r else [d])

/-- The escaping loop of `load`: for each character of `"^$()[].-"` in turn,
replace it by a backslash followed by itself. -/
def escapeChars (s : List Char) : List Char :=
  escapedChars.foldl (fun acc c => replaceChar c ['\\', c] acc) s

/-- The regex text built by `load` for a section name: escape, `?` to `.`,
`*` to `.*?`, then wrap with `^` and `$`. -/
def toRegexChars (sec : List Char) : List Char :=
  let r := escapeChars sec
  let r := replaceChar '?' ['.'] r
  let r := replaceChar '*' ['.', '*', '?'] r
  '^' :: (r ++ ['$'])

/-- The regex text between the anchors: the three replacement passes of the
pipeline (`toRegexChars sec = '^' :: (innerRegex sec ++ ['$'])`). -/
def innerRegex (sec : List Char) : List Char :=
  replaceChar '*' ['.', '*', '?'] (replaceChar '?' ['.'] (escapeChars sec))

/-- Regex metacharacters that the pipeline never produces unescaped from a
section name free of `\\ + { } |`; an occurrence is outside the modelled
regex fragment (Python `re` would treat it as an unsupported-here operator
or reject the pattern), so parsing reports failure. -/
def rxMeta : List Char := ['\\', '^', '$', '(', ')', '[', ']', '*', '?', '+', '{', '}', '|']

/-- Parses the part of a regex text after the leading `^` into compiled
primitives.  The final `$` closes the pattern; `\c` is a literal; `.*?` is
`Rx.star`; a lone `.` is `Rx.any`; any other non-meta character is a
literal (an unescaped metacharacter elsewhere is outside the fragment). -/
def parseRxAux : List Char → Option (List Rx)
  | [] => none
  | ['$'] => some []
  | '\\' :: d :: rest2 => (parseRxAux rest2).map (fun rs => Rx.lit d :: rs)
  | '.' :: '*' :: '?' :: rest2 => (parseRxAux rest2).map (fun rs => Rx.star :: rs)
  | '.' :: rest => (parseRxAux rest).map (fun rs => Rx.any :: rs)
  | c :: rest => if c ∈ rxMeta then none else (parseRxAux rest).map (fun rs => Rx.lit c :: rs)

/-- `re.compile` of the regex text `load` builds for a section name. -/
def reCompile (sec : List Char) : Option (List Rx) :=
  match toRegexChars sec with
  | '^' :: rest => parseRxAux rest
  | _ => none

/-- Section-name characters inside the modelled regex fragment: everything
except a backslash and the unescaped metacharacters `+ { } |`. -/
def sectionChar (c : Char) : Bool := !(c ∈ rxMeta) || c ∈ escapedChars || c = '?' || c = '*'

/-- The meaning, per primitive, of a section-name character after the
pipeline: `?` is `.`, `*` is `.*?`, anything else a literal. -/
def charToRx (c : Char) : Rx :=
  if c = '?' then Rx.any else if c = '*' then Rx.star else Rx.lit c

/-- Whether the compiled pattern of the section name `sec` matches `input`
(false as well when the name is outside the modelled regex fragment). -/
def sectionMatches (sec input : String) : Bool :=
  match reCompile sec.toList with
  | some rs => rxMatch rs input.toList
  | none => false

/-- Modelled from the spec (pattern-compiler description): `?` matches
exactly one arbitrary character, `*` matches zero or more arbitrary
characters, every other character matches itself, and the whole pattern is
anchored at both ends, matching the full string.  Fuelled like `rxMatchF`. -/
def specGlobF : Nat → List Char → List Char → Bool
  | 0, _, _ => false
  | _ + 1, [], s => s.isEmpty
  | n + 1, c :: ps, s =>
    if c = '*' then
      specGlobF n ps s ||
        match s with
        | [] => false
        | _ :: s' => specGlobF n (c :: ps) s'
    else
      match s with
      | [] => false
      | d :: s' => if c = '?' then specGlobF n ps s' else c == d && specGlobF n ps s'

/-- Modelled from the spec: full-string glob match of a section name against
an input, with `?`/`*` as arbitrary-character wildcards. -/
def specGlobMatch (p s : List Char) : Bool :=
  specGlobF (p.length + s.length + 1) p s

/-! ### Property resolution (`__get_browser_props`, lines 155-173) -/

/-- The exceptions `__get_browser_props` can raise: `NoSectionError` from
ConfigParser when the named section does not exist (`has_option`, `get` and
`items` all raise it), and CPython's `RecursionError` when the recursive
parent walk exhausts the interpreter recursion limit. -/
inductive ResolveErr
  | noSection (s : String)
  | recursionLimitExceeded
deriving DecidableEq, Repr

/-- CPython's default `sys.getrecursionlimit()`. -/
def recursionLimit : Nat := 1000

/-- `__get_browser_props(cp, sec)`: start from the recursively resolved
parent properties when the section has a `parent` key (an empty dict
otherwise) and overshadow them with the section's own raw properties.
The fuel models the interpreter recursion limit: at fuel 0 the call raises
`RecursionError`. -/
def getBrowserProps (cp : Db) (sec : String) : Nat → Except ResolveErr PropMap
  | 0 => .error .recursionLimitExceeded
  | fuel + 1 =>
    match cp.lookup sec with
    | none => .error (.noSection sec)
    | some props =>
      match props.lookup "parent" with
      | none => .ok (overlay [] props)
      | some par => (getBrowserProps cp par fuel).map (fun pp => overlay pp props)

/-! ### The parser object and `load` (lines 16-72) -/

/-- The mutable state of a `UserAgentParser` object: the two catalog dicts
populated by `load` and the match cache populated by `__match`. -/
structure UserAgentParser where
  /-- `self.user_agent_properties`: section name to resolved properties. -/
  user_agent_properties : List (String × PropMap)
  /-- `self.user_agent_regexps`: section name to compiled pattern. -/
  user_agent_regexps : List (String × List Rx)
  /-- `self.__match_cache`: queried string to selected section name. -/
  match_cache : List (String × String)
deriving DecidableEq, Repr

/-- `UserAgentParser.__init__`: all three dicts start empty. -/
def UserAgentParser.init : UserAgentParser := ⟨[], [], []⟩

/-- Lines 35-36 of `load`: drop the meta sections `*` and
`GJK_Browscap_Version`. -/
def remove_meta (cp : Db) : Db :=
  cp.filter (fun p => !(p.1 == "*") && !(p.1 == "GJK_Browscap_Version"))

/-- Whether some section of the database names `s` as its parent. -/
def parentCited (cp : Db) (s : String) : Bool :=
  cp.any (fun p => p.2.lookup "parent" == some s)

/-- Lines 38-45 of `load`: the non-parent (leaf) sections, i.e. all sections
minus every section cited as a `parent`. -/
def child_sections (cp : Db) : List String :=
  (cp.map Prod.fst).filter (fun s => !parentCited cp s)

/-- The populate loop of `load` (lines 48-69) over the remaining leaf
sections.  A resolution failure is caught: the section is skipped and the
loop continues.  A failure of `re.compile` is *not* caught: the exception
propagates out of `load`, leaving the state as mutated so far; the `Bool`
records whether the loop completed without raising. -/
def loadSections (cp : Db) : List String → UserAgentParser → UserAgentParser × Bool
  | [], st => (st, true)
  | sec :: rest, st =>
    match getBrowserProps cp sec recursionLimit with
    | .error _ => loadSections cp rest st
    | .ok properties =>
      let st1 : UserAgentParser :=
        { st with user_agent_properties := insertA st.user_agent_properties sec properties }
      match reCompile sec.toList with
      | none => (st1, false)
      | some rx =>
        loadSections cp rest
          { st1 with user_agent_regexps := insertA st1.user_agent_regexps sec rx }

/-- `load` after the collaborator has parsed the INI file into `cp`: remove
the meta sections, compute the leaf sections, and populate the two catalog
dicts.  Nothing is ever removed from the state: the previous catalog entries
and the match cache are left in place. -/
def load (cp : Db) (st : UserAgentParser) : UserAgentParser × Bool :=
  let cp2 := remove_meta cp
  loadSections cp2 (child_sections cp2) st

/-! ### Matching and querying (lines 101-152) -/

/-- One iteration of the `__match` scan: replace the best section found so
far when this section's pattern matches and its name is strictly longer. -/
def scanStep (ua : List Char) (acc : String) (p : String × List Rx) : String :=
  if rxMatch p.2 ua = true ∧ acc.length < p.1.length then p.1 else acc

/-- The cache-miss body of `__match` (lines 144-148): scan every compiled
pattern, keeping the longest-named matching section, starting from the
no-match sentinel `""`. -/
def matchScan (regexps : List (String × List Rx)) (ua : String) : String :=
  regexps.foldl (scanStep ua.toList) ""

/-- `__match`: answer from the match cache when the string was seen before;
otherwise scan the catalog and record the selection (possibly the no-match
sentinel `""`) in the cache. -/
def matchUA (st : UserAgentParser) (ua : String) : String × UserAgentParser :=
  match st.match_cache.lookup ua with
  | some s => (s, st)
  | none =>
    let m := matchScan st.user_agent_regexps ua
    (m, { st with match_cache := insertA st.match_cache ua m })

/-- The exceptions `query` and `get_all_user_agents` can raise. -/
inductive QueryErr
  /-- `__check_init` (line 130): no compiled pattern is present. -/
  | uninit
  /-- line 121, carrying the offending input string. -/
  | unknownUserAgent (ua : String)
  /-- a `KeyError` from `user_agent_properties[section]` (line 124). -/
  | keyError (k : String)
deriving DecidableEq, Repr

/-- `query(user_agent_string, safe)`: raise the uninitialized error when
`user_agent_regexps` is empty (`__check_init`); otherwise match.  On the
no-match sentinel return `{}` when `safe` and raise the unknown-user-agent
error otherwise.  On a selected section return the stored resolved
properties dict.  The returned state carries the cache mutation of
`__match`, which happens even when `query` raises afterwards. -/
def query (st : UserAgentParser) (ua : String) (safe : Bool) :
    Except QueryErr PropMap × UserAgentParser :=
  if st.user_agent_regexps.isEmpty then (.error .uninit, st)
  else
    let r := matchUA st ua
    if r.1 = "" then
      (if safe then .ok [] else .error (.unknownUserAgent ua), r.2)
    else
      match r.2.user_agent_properties.lookup r.1 with
      | some props => (.ok props, r.2)
      | none => (.error (.keyError r.1), r.2)

/-- `get_all_user_agents`: after the `__check_init` guard, the list of the
keys of `user_agent_properties`. -/
def get_all_user_agents (st : UserAgentParser) : Except QueryErr (List String) :=
  if st.user_agent_regexps.isEmpty then .error .uninit
  else .ok (st.user_agent_properties.map Prod.fst)

/-- Line 124 of `query` returns `self.user_agent_properties[section]`, the
dict object stored in the catalog itself, not a copy.  A caller executing
`result[k] = v` on the returned dict therefore writes through the shared
reference into the catalog entry of `sec`; this definition is that caller
write expressed on the parser state. -/
def mutateResult (st : UserAgentParser) (sec k v : String) : UserAgentParser :=
  { st with
    user_agent_properties :=
      st.user_agent_properties.map
        (fun p => if p.1 = sec then (p.1, insertA p.2 k v) else p) }

/-! ### Concrete databases used to instantiate the claims -/

/-- Two leaf sections, no inheritance: the most-specific-selection example. -/
def mozDb : Db :=
  [("Mozilla*", [("browser", "Mozilla"), ("version", "0")]),
   ("Mozilla/5.0*Firefox*", [("browser", "Firefox"), ("version", "1.0")])]

/-- One root and one leaf child, with an overridden property. -/
def famDb : Db :=
  [("Root", [("a", "1"), ("b", "2")]),
   ("Child", [("parent", "Root"), ("b", "3")])]

/-- A database whose only section is a leaf. -/
def oldDb : Db := [("OldOnly*", [("browser", "Old")])]

/-- A second database omitting `oldDb`'s pattern. -/
def newDb : Db := [("NewThing*", [("browser", "New")])]

/-- A two-section parent cycle: A's parent is B and B's parent is A (so
neither is a leaf). -/
def twoCycDb : Db :=
  [("A", [("parent", "B"), ("x", "1")]),
   ("B", [("parent", "A")])]

/-- A leaf section A whose parent chain runs into the cycle B-C-B. -/
def threeCycDb : Db :=
  [("A", [("parent", "B"), ("x", "1")]),
   ("B", [("parent", "C")]),
   ("C", [("parent", "B")])]

end Browscap

deriving instance DecidableEq for Except

namespace Browscap

/-! ### Association-list helper lemmas -/

theorem lookup_append {α : Type} (l1 l2 : List (String × α)) (k : String) :
    (l1 ++ l2).lookup k = ((l1.lookup k).or (l2.lookup k)) := by
  induction l1 with
  | nil => simp [List.lookup]
  | cons p t ih =>
    rcases p with ⟨a, b⟩
    by_cases h : k = a
    · subst h; simp [List.lookup]
    · simp [List.lookup, beq_false_of_ne h, ih]

theorem lookup_map_replace {α : Type} (l : List (String × α)) (k : String) (v : α)
    (h : (l.lookup k).isSome) :
    (l.map (fun p => if p.1 = k then (k, v) else p)).lookup k = some v := by
  induction l with
  | nil => simp [List.lookup] at h
  | cons p t ih =>
    rcases p with ⟨a, b⟩
    by_cases hak : a = k
    · subst hak
      simp only [List.map_cons]
      simp [List.lookup]
    · have hk : k ≠ a := fun hh => hak hh.symm
      simp only [List.map_cons, if_neg hak]
      simp only [List.lookup, beq_false_of_ne hk] at h ⊢
      exact ih h

theorem lookup_map_replace_ne {α : Type} (l : List (String × α)) (k k' : String) (v : α)
    (h : k' ≠ k) :
    (l.map (fun p => if p.1 = k then (k, v) else p)).lookup k' = l.lookup k' := by
  induction l with
  | nil => simp
  | cons p t ih =>
    rcases p with ⟨a, b⟩
    by_cases hak : a = k
    · subst hak
      simp only [List.map_cons, if_pos rfl]
      simp [List.lookup, beq_false_of_ne h, ih]
    · simp only [List.map_cons, if_neg hak]
      by_cases hka : k' = a
      · subst hka; simp [List.lookup]
      · simp [List.lookup, beq_false_of_ne hka, ih]

theorem lookup_insertA_self {α : Type} (l : List (String × α)) (k : String) (v : α) :
    (insertA l k v).lookup k = some v := by
  unfold insertA
  by_cases h : (l.lookup k).isSome
  · simp only [if_pos h]
    exact lookup_map_replace l k v h
  · simp only [if_neg h]
    rw [lookup_append]
    rcases ho : l.lookup k with _ | w
    · simp [List.lookup]
    · exact absurd (by simp [ho]) h

theorem lookup_insertA_ne {α : Type} (l : List (String × α)) (k k' : String) (v : α)
    (h : k' ≠ k) :
    (insertA l k v).lookup k' = l.lookup k' := by
  unfold insertA
  by_cases hs : (l.lookup k).isSome
  · simp only [if_pos hs]
    exact lookup_map_replace_ne l k k' v h
  · simp only [if_neg hs]
    rw [lookup_append]
    rcases ho : l.lookup k' with _ | w
    · simp [List.lookup, beq_false_of_ne h]
    · simp

theorem lookup_insertA_isSome {α : Type} (l : List (String × α)) (k k' : String) (v : α)
    (h : (l.lookup k').isSome) : ((insertA l k v).lookup k').isSome := by
  by_cases hk : k' = k
  · subst hk; simp [lookup_insertA_self]
  · rw [lookup_insertA_ne l k k' v hk]; exact h

/-! ### Lemmas on the `__match` scan -/

theorem scan_foldl_mem (ua : List Char) (l : List (String × List Rx)) (acc : String) :
    l.foldl (scanStep ua) acc = acc ∨
      ∃ p ∈ l, p.1 = l.foldl (scanStep ua) acc ∧ rxMatch p.2 ua = true := by
  induction l generalizing acc with
  | nil => exact Or.inl rfl
  | cons p t ih =>
    rw [List.foldl_cons]
    by_cases h : rxMatch p.2 ua = true ∧ acc.length < p.1.length
    · rcases ih (scanStep ua acc p) with heq | ⟨q, hq, hq1, hq2⟩
      · refine Or.inr ⟨p, List.mem_cons_self p t, ?_, h.1⟩
        rw [heq]
        simp [scanStep, if_pos h]
      · exact Or.inr ⟨q, List.mem_cons_of_mem p hq, hq1, hq2⟩
    · have hstep : scanStep ua acc p = acc := by simp [scanStep, if_neg h]
      rw [hstep]
      rcases ih acc with heq | ⟨q, hq, hq1, hq2⟩
      · exact Or.inl heq
      · exact Or.inr ⟨q, List.mem_cons_of_mem p hq, hq1, hq2⟩

theorem scan_foldl_ge_acc (ua : List Char) (l : List (String × List Rx)) (acc : String) :
    acc.length ≤ (l.foldl (scanStep ua) acc).length := by
  induction l generalizing acc with
  | nil => exact le_refl _
  | cons p t ih =>
    rw [List.foldl_cons]
    refine le_trans ?_ (ih (scanStep ua acc p))
    by_cases h : rxMatch p.2 ua = true ∧ acc.length < p.1.length
    · simp only [scanStep, if_pos h]
      exact le_of_lt h.2
    · simp [scanStep, if_neg h]

theorem scan_foldl_ge_match (ua : List Char) (l : List (String × List Rx)) (acc : String) :
    ∀ p ∈ l, rxMatch p.2 ua = true → p.1.length ≤ (l.foldl (scanStep ua) acc).length := by
  induction l generalizing acc with
  | nil => intro p hp; exact absurd hp (List.not_mem_nil p)
  | cons q t ih =>
    intro p hp hm
    rw [List.foldl_cons]
    rcases List.mem_cons.mp hp with rfl | hpt
    · by_cases h : rxMatch p.2 ua = true ∧ acc.length < p.1.length
      · have hstep : scanStep ua acc p = p.1 := by simp [scanStep, if_pos h]
        rw [hstep]
        exact scan_foldl_ge_acc ua t p.1
      · have hlen : p.1.length ≤ acc.length := by
          by_contra hc
          exact h ⟨hm, Nat.lt_of_not_le hc⟩
        have hstep : scanStep ua acc p = acc := by simp [scanStep, if_neg h]
        rw [hstep]
        exact le_trans hlen (scan_foldl_ge_acc ua t acc)
    · exact ih (scanStep ua acc q) p hpt hm

theorem scan_foldl_no_match (ua : List Char) (l : List (String × List Rx)) (acc : String)
    (h : ∀ p ∈ l, rxMatch p.2 ua = false) : l.foldl (scanStep ua) acc = acc := by
  induction l generalizing acc with
  | nil => rfl
  | cons p t ih =>
    rw [List.foldl_cons]
    have hp : rxMatch p.2 ua = false := h p (List.mem_cons_self p t)
    have hstep : scanStep ua acc p = acc := by
      simp [scanStep, hp]
    rw [hstep]
    exact ih acc (fun q hq => h q (List.mem_cons_of_mem p hq))

/-! ### Lemmas on `__match` and its cache -/

theorem matchUA_preserves_regexps (st : UserAgentParser) (ua : String) :
    (matchUA st ua).2.user_agent_regexps = st.user_agent_regexps := by
  unfold matchUA
  rcases st.match_cache.lookup ua with _ | s <;> rfl

theorem matchUA_preserves_properties (st : UserAgentParser) (ua : String) :
    (matchUA st ua).2.user_agent_properties = st.user_agent_properties := by
  unfold matchUA
  rcases st.match_cache.lookup ua with _ | s <;> rfl

/-- After any `__match` call the cache holds exactly the returned selection
for the queried string. -/
theorem matchUA_cached (st : UserAgentParser) (ua : String) :
    (matchUA st ua).2.match_cache.lookup ua = some (matchUA st ua).1 := by
  unfold matchUA
  rcases hc : st.match_cache.lookup ua with _ | s
  · simpa using lookup_insertA_self st.match_cache ua (matchScan st.user_agent_regexps ua)
  · simpa using hc

/-- On a cache miss, `__match` performs the scan and returns its result. -/
theorem matchUA_miss (st : UserAgentParser) (ua : String)
    (h : st.match_cache.lookup ua = none) :
    (matchUA st ua).1 = matchScan st.user_agent_regexps ua := by
  unfold matchUA
  rw [h]

/-- On a cache hit, `__match` returns the cached value and does not touch
the state. -/
theorem matchUA_hit (st : UserAgentParser) (ua : String) (s : String)
    (h : st.match_cache.lookup ua = some s) :
    matchUA st ua = (s, st) := by
  unfold matchUA
  rw [h]

/-- `__match` is idempotent: the second call on the state left by the first
answers from the cache with the same selection and leaves the state alone. -/
theorem matchUA_idem (st : UserAgentParser) (ua : String) :
    matchUA (matchUA st ua).2 ua = ((matchUA st ua).1, (matchUA st ua).2) :=
  matchUA_hit _ ua _ (matchUA_cached st ua)

/-- Unfolding of `query` past the `__check_init` guard: the answer is a
function of the `__match` selection, and the returned state is exactly the
state `__match` leaves behind. -/
theorem query_eq (st : UserAgentParser) (ua : String) (safe : Bool)
    (h : st.user_agent_regexps.isEmpty = false) :
    query st ua safe =
      ((if (matchUA st ua).1 = "" then
          (if safe then .ok [] else .error (.unknownUserAgent ua))
        else
          match (matchUA st ua).2.user_agent_properties.lookup (matchUA st ua).1 with
          | some props => .ok props
          | none => .error (.keyError (matchUA st ua).1)),
       (matchUA st ua).2) := by
  simp only [query, h, Bool.false_eq_true, if_false]
  by_cases h1 : (matchUA st ua).1 = ""
  · simp [h1]
  · simp only [if_neg h1]
    rcases hlk : (matchUA st ua).2.user_agent_properties.lookup (matchUA st ua).1 with _ | props
      <;> simp

/-- Querying twice in a row gives the same answer and the same state: the
second call is answered from the populated cache. -/
theorem query_idem (st : UserAgentParser) (ua : String) (safe : Bool) :
    query (query st ua safe).2 ua safe = query st ua safe := by
  rcases hinit : st.user_agent_regexps.isEmpty with _ | _
  · have hstate : (query st ua safe).2 = (matchUA st ua).2 := by
      rw [query_eq st ua safe hinit]
    have hreg2 : (query st ua safe).2.user_agent_regexps.isEmpty = false := by
      rw [hstate, matchUA_preserves_regexps]; exact hinit
    have hm2 : matchUA (query st ua safe).2 ua = ((matchUA st ua).1, (matchUA st ua).2) := by
      rw [hstate]; exact matchUA_idem st ua
    rw [query_eq _ ua safe hreg2, hm2, query_eq st ua safe hinit]
  · simp [query, hinit]

/-! ### Lemmas on the `load` loop -/

/-- The populate loop never touches the match cache. -/
theorem loadSections_cache (cp : Db) (secs : List String) (st : UserAgentParser) :
    (loadSections cp secs st).1.match_cache = st.match_cache := by
  induction secs generalizing st with
  | nil => rfl
  | cons sec t ih =>
    simp only [loadSections]
    rcases getBrowserProps cp sec recursionLimit with e | properties
    · exact ih st
    · rcases reCompile sec.toList with _ | rx
      · rfl
      · exact ih _

/-- The populate loop only inserts into `user_agent_regexps`: every key
present before is present afterwards. -/
theorem loadSections_regexps_mono (cp : Db) (secs : List String) (st : UserAgentParser)
    (s : String) (h : (st.user_agent_regexps.lookup s).isSome) :
    ((loadSections cp secs st).1.user_agent_regexps.lookup s).isSome := by
  induction secs generalizing st with
  | nil => exact h
  | cons sec t ih =>
    simp only [loadSections]
    rcases getBrowserProps cp sec recursionLimit with e | properties
    · exact ih st h
    · rcases reCompile sec.toList with _ | rx
      · exact h
      · exact ih _ (lookup_insertA_isSome _ sec s _ h)

/-- `load` never clears the match cache. -/
theorem load_cache (cp : Db) (st : UserAgentParser) :
    (load cp st).1.match_cache = st.match_cache :=
  loadSections_cache _ _ st

/-- `load` never removes a compiled pattern from the catalog. -/
theorem load_regexps_mono (cp : Db) (st : UserAgentParser) (s : String)
    (h : (st.user_agent_regexps.lookup s).isSome) :
    ((load cp st).1.user_agent_regexps.lookup s).isSome :=
  loadSections_regexps_mono _ _ st s h

/-! ### Lemmas on resolution over a parent cycle -/

/-- On the two-section cycle A-B-A, resolution exhausts every recursion
budget: the budget strictly decreases along the parent chain and the chain
never reaches a section without a parent. -/
theorem twoCyc_resolve (fuel : Nat) :
    getBrowserProps twoCycDb "A" fuel = .error .recursionLimitExceeded ∧
      getBrowserProps twoCycDb "B" fuel = .error .recursionLimitExceeded := by
  induction fuel with
  | zero => exact ⟨rfl, rfl⟩
  | succ n ih =>
    refine ⟨?_, ?_⟩
    · show (getBrowserProps twoCycDb "B" n).map _ = _
      rw [ih.2]; rfl
    · show (getBrowserProps twoCycDb "A" n).map _ = _
      rw [ih.1]; rfl

/-- On the database whose leaf A runs into the cycle B-C-B, resolution of
A, B and C exhausts every recursion budget. -/
theorem threeCyc_resolve (fuel : Nat) :
    getBrowserProps threeCycDb "B" fuel = .error .recursionLimitExceeded ∧
      getBrowserProps threeCycDb "C" fuel = .error .recursionLimitExceeded := by
  induction fuel with
  | zero => exact ⟨rfl, rfl⟩
  | succ n ih =>
    refine ⟨?_, ?_⟩
    · show (getBrowserProps threeCycDb "C" n).map _ = _
      rw [ih.2]; rfl
    · show (getBrowserProps threeCycDb "B" n).map _ = _
      rw [ih.1]; rfl

theorem threeCyc_resolve_A (fuel : Nat) :
    getBrowserProps threeCycDb "A" fuel = .error .recursionLimitExceeded := by
  rcases fuel with _ | n
  · rfl
  · show (getBrowserProps threeCycDb "B" n).map _ = _
    rw [(threeCyc_resolve n).1]; rfl

/-! ### The compiled pattern agrees with the spec's glob semantics away from
newlines -/

theorem rx_glob_equivF (n : Nat) : ∀ (p s : List Char), '\n' ∉ s →
    rxMatchF n (p.map charToRx) s = specGlobF n p s := by
  induction n with
  | zero => intro p s _; rfl
  | succ n ih =>
    intro p s hs
    rcases p with _ | ⟨c, ps⟩
    · rcases s with _ | ⟨d, s'⟩
      · rfl
      · have hd : d ≠ '\n' := fun hh => hs (hh ▸ List.mem_cons_self d s')
        rcases s' with _ | ⟨e, s''⟩
        · simp [rxMatchF, specGlobF, endOk, hd]
        · simp [rxMatchF, specGlobF, endOk]
    · have hs' : ∀ (d : Char) (s' : List Char), s = d :: s' → '\n' ∉ s' :=
        fun d s' hh hmem => hs (hh ▸ List.mem_cons_of_mem d hmem)
      by_cases hq : c = '?'
      · subst hq
        rcases s with _ | ⟨d, s'⟩
        · simp [rxMatchF, specGlobF, charToRx]
        · have hd : d ≠ '\n' := fun hh => hs (hh ▸ List.mem_cons_self d s')
          simp [rxMatchF, specGlobF, charToRx, hd, ih ps s' (hs' d s' rfl)]
      · by_cases hst : c = '*'
        · subst hst
          have hmap : (('*' :: ps).map charToRx) = Rx.star :: ps.map charToRx := by
            simp [charToRx]
          rcases s with _ | ⟨d, s'⟩
          · simp only [hmap]
            simp [rxMatchF, specGlobF, charToRx, ih ps [] hs]
          · have hd : d ≠ '\n' := fun hh => hs (hh ▸ List.mem_cons_self d s')
            have hbne : (d != '\n') = true := bne_iff_ne.mpr hd
            have ih2 := ih ('*' :: ps) s' (hs' d s' rfl)
            simp only [hmap] at ih2 ⊢
            simp [rxMatchF, specGlobF, hbne, ih ps (d :: s') hs, ih2]
        · rcases s with _ | ⟨d, s'⟩
          · simp [rxMatchF, specGlobF, charToRx, hq, hst]
          · have hd : d ≠ '\n' := fun hh => hs (hh ▸ List.mem_cons_self d s')
            simp [rxMatchF, specGlobF, charToRx, hq, hst, ih ps s' (hs' d s' rfl)]

/-- Away from newline characters, the compiled primitives implement exactly
the spec's glob semantics. -/
theorem rx_glob_equiv (p s : List Char) (hs : '\n' ∉ s) :
    rxMatch (p.map charToRx) s = specGlobMatch p s := by
  unfold rxMatch specGlobMatch
  rw [List.length_map]
  exact rx_glob_equivF _ p s hs

/-! ### The pipeline compiles each section character to its primitive -/

theorem toRegexChars_eq (sec : List Char) :
    toRegexChars sec = '^' :: (innerRegex sec ++ ['$']) := rfl

theorem replaceChar_append (c : Char) (r : List Char) (xs ys : List Char) :
    replaceChar c r (xs ++ ys) = replaceChar c r xs ++ replaceChar c r ys := by
  simp [replaceChar]

theorem escFold_append (cs : List Char) (xs ys : List Char) :
    cs.foldl (fun acc c => replaceChar c ['\\', c] acc) (xs ++ ys) =
      cs.foldl (fun acc c => replaceChar c ['\\', c] acc) xs ++
        cs.foldl (fun acc c => replaceChar c ['\\', c] acc) ys := by
  induction cs generalizing xs ys with
  | nil => rfl
  | cons c t ih =>
    simp only [List.foldl_cons]
    rw [replaceChar_append, ih]

theorem escapeChars_append (xs ys : List Char) :
    escapeChars (xs ++ ys) = escapeChars xs ++ escapeChars ys :=
  escFold_append escapedChars xs ys

theorem innerRegex_append (xs ys : List Char) :
    innerRegex (xs ++ ys) = innerRegex xs ++ innerRegex ys := by
  unfold innerRegex
  rw [escapeChars_append, replaceChar_append, replaceChar_append]

theorem innerRegex_cons (c : Char) (cs : List Char) :
    innerRegex (c :: cs) = innerRegex [c] ++ innerRegex cs :=
  innerRegex_append [c] cs

theorem replaceChar_single_ne (c d : Char) (r : List Char) (h : c ≠ d) :
    replaceChar d r [c] = [c] := by
  simp [replaceChar, h]

theorem innerRegex_escaped (c : Char) (h : c ∈ escapedChars) :
    innerRegex [c] = ['\\', c] := by
  simp only [escapedChars, List.mem_cons, List.not_mem_nil, or_false] at h
  rcases h with rfl | rfl | rfl | rfl | rfl | rfl | rfl | rfl <;> rfl

theorem innerRegex_plain (c : Char) (h1 : c ∉ escapedChars) (h2 : c ≠ '?') (h3 : c ≠ '*') :
    innerRegex [c] = [c] := by
  simp only [escapedChars, List.mem_cons, List.not_mem_nil, or_false, not_or] at h1
  obtain ⟨n1, n2, n3, n4, n5, n6, n7, n8⟩ := h1
  unfold innerRegex escapeChars escapedChars
  simp only [List.foldl_cons, List.foldl_nil]
  rw [replaceChar_single_ne c '^' _ n1, replaceChar_single_ne c '$' _ n2,
    replaceChar_single_ne c '(' _ n3, replaceChar_single_ne c ')' _ n4,
    replaceChar_single_ne c '[' _ n5, replaceChar_single_ne c ']' _ n6,
    replaceChar_single_ne c '.' _ n7, replaceChar_single_ne c '-' _ n8,
    replaceChar_single_ne c '?' _ h2, replaceChar_single_ne c '*' _ h3]

/-- Classification of a section character inside the modelled fragment. -/
theorem sectionChar_cases (c : Char) (h : sectionChar c = true) :
    c ∈ escapedChars ∨ c = '?' ∨ c = '*' ∨
      (c ∉ escapedChars ∧ c ≠ '?' ∧ c ≠ '*' ∧ c ∉ rxMeta) := by
  by_cases hu : c ∈ escapedChars
  · exact Or.inl hu
  by_cases hq : c = '?'
  · exact Or.inr (Or.inl hq)
  by_cases hst : c = '*'
  · exact Or.inr (Or.inr (Or.inl hst))
  refine Or.inr (Or.inr (Or.inr ⟨hu, hq, hst, ?_⟩))
  unfold sectionChar at h
  simp only [Bool.or_eq_true, Bool.not_eq_true', decide_eq_true_eq,
    decide_eq_false_iff_not] at h
  rcases h with ((hm | hu') | hq') | hst'
  · exact hm
  · exact absurd hu' hu
  · exact absurd hq' hq
  · exact absurd hst' hst

theorem escaped_not_wild (c : Char) (h : c ∈ escapedChars) : c ≠ '?' ∧ c ≠ '*' := by
  simp only [escapedChars, List.mem_cons, List.not_mem_nil, or_false] at h
  rcases h with rfl | rfl | rfl | rfl | rfl | rfl | rfl | rfl <;> exact ⟨by decide, by decide⟩

theorem parse_esc (c : Char) (t : List Char) :
    parseRxAux ('\\' :: c :: t) = (parseRxAux t).map (fun rs => Rx.lit c :: rs) := rfl

theorem parse_star_block (t : List Char) :
    parseRxAux ('.' :: '*' :: '?' :: t) = (parseRxAux t).map (fun rs => Rx.star :: rs) := rfl

theorem parse_dollar : parseRxAux ['$'] = some [] := rfl

theorem parse_any_block (d : Char) (t : List Char) (hd : d ≠ '*') :
    parseRxAux ('.' :: d :: t) = (parseRxAux (d :: t)).map (fun rs => Rx.any :: rs) := by
  rw [parseRxAux.eq_def]
  split
  · simp_all
  · simp_all
  · simp_all
  · rename_i rest2 heq
    injection heq with h1 h2
    injection h2 with h3 _
    exact absurd h3 hd
  · rename_i heq
    injection heq with h1 h2
    rw [← h2]
  · rename_i c' rest' hA hB hC heq
    injection heq with hh1 hh2
    exact absurd hh1.symm hC

theorem parse_plain (c : Char) (t : List Char) (hm : c ∉ rxMeta) (hdot : c ≠ '.') :
    parseRxAux (c :: t) = (parseRxAux t).map (fun rs => Rx.lit c :: rs) := by
  have h1 : c ≠ '$' := fun hh => hm (hh ▸ (by decide : ('$' : Char) ∈ rxMeta))
  have h2 : c ≠ '\\' := fun hh => hm (hh ▸ (by decide : ('\\' : Char) ∈ rxMeta))
  rw [parseRxAux.eq_def]
  split
  · simp_all
  · rename_i heq
    injection heq with hh1 _
    exact absurd hh1 h1
  · rename_i d' rest2 heq
    injection heq with hh1 _
    exact absurd hh1 h2
  · rename_i rest2 heq
    injection heq with hh1 _
    exact absurd hh1 hdot
  · rename_i rest' heq
    injection heq with hh1 _
    exact absurd hh1 hdot
  · rename_i c' rest' hA hB hC heq
    injection heq with hh1 hh2
    subst hh1; subst hh2
    rw [if_neg hm]

/-- The regex text of a section inside the modelled fragment never starts
with `*`: each character block starts with `\\`, `.`, a plain literal other
than `*`, or the closing `$`. -/
theorem inner_head_ne_star (cs : List Char) (h : ∀ c ∈ cs, sectionChar c = true)
    (d : Char) (t : List Char) (he : innerRegex cs ++ ['$'] = d :: t) : d ≠ '*' := by
  rcases cs with _ | ⟨c, cs'⟩
  · rw [show innerRegex ([] : List Char) = [] from rfl, List.nil_append] at he
    injection he with h1 _
    rw [← h1]; decide
  · rw [innerRegex_cons, List.append_assoc] at he
    rcases sectionChar_cases c (h c (List.mem_cons_self c cs')) with hu | hq | hst | hp
    · rw [innerRegex_escaped c hu] at he
      injection he with h1 _
      rw [← h1]; decide
    · subst hq
      rw [show innerRegex ['?'] = ['.'] from rfl] at he
      injection he with h1 _
      rw [← h1]; decide
    · subst hst
      rw [show innerRegex ['*'] = ['.', '*', '?'] from rfl] at he
      injection he with h1 _
      rw [← h1]; decide
    · obtain ⟨hu', hq', hst', _⟩ := hp
      rw [innerRegex_plain c hu' hq' hst'] at he
      injection he with h1 _
      rw [← h1]; exact hst'

/-- Parsing the regex text of a section inside the modelled fragment yields
one primitive per section character: `?` becomes the any-character
primitive, `*` the star primitive, anything else a literal. -/
theorem parse_inner (cs : List Char) (h : ∀ c ∈ cs, sectionChar c = true) :
    parseRxAux (innerRegex cs ++ ['$']) = some (cs.map charToRx) := by
  induction cs with
  | nil => rfl
  | cons c cs' ih =>
    have hc := h c (List.mem_cons_self c cs')
    have hcs' : ∀ x ∈ cs', sectionChar x = true := fun x hx => h x (List.mem_cons_of_mem c hx)
    have ihv := ih hcs'
    rw [innerRegex_cons, List.append_assoc]
    rcases sectionChar_cases c hc with hu | hq | hst | hp
    · rw [innerRegex_escaped c hu, List.cons_append, List.cons_append, List.nil_append,
        parse_esc, ihv]
      obtain ⟨hq', hst'⟩ := escaped_not_wild c hu
      simp [charToRx, hq', hst']
    · subst hq
      rw [show innerRegex ['?'] = ['.'] from rfl]
      rcases he : innerRegex cs' ++ ['$'] with _ | ⟨d, t⟩
      · exact absurd he (by simp)
      · have hd := inner_head_ne_star cs' hcs' d t he
        simp only [List.cons_append, List.nil_append]
        rw [parse_any_block d t hd, ← he, ihv]
        simp [charToRx]
    · subst hst
      rw [show innerRegex ['*'] = ['.', '*', '?'] from rfl]
      simp only [List.cons_append, List.nil_append]
      rw [parse_star_block, ihv]
      simp [charToRx]
    · obtain ⟨hu', hq', hst', hm⟩ := hp
      have hdot : c ≠ '.' := fun hh => hu' (hh ▸ (by decide : ('.' : Char) ∈ escapedChars))
      rw [innerRegex_plain c hu' hq' hst', List.cons_append, List.nil_append,
        parse_plain c _ hm hdot, ihv]
      simp [charToRx, hq', hst']

/-- For a section name inside the modelled fragment, `re.compile` of the
regex text built by `load` yields exactly one primitive per character. -/
theorem reCompile_maps (cs : List Char) (h : ∀ c ∈ cs, sectionChar c = true) :
    reCompile cs = some (cs.map charToRx) := by
  unfold reCompile
  rw [toRegexChars_eq]
  exact parse_inner cs h

/-! ### Overlay and aliasing helper lemmas -/

/-- A key of the overshadowing dict keeps its overshadowing value. -/
theorem overlay_lookup_own (base props : PropMap) (k v : String)
    (h : props.lookup k = some v) : (overlay base props).lookup k = some v := by
  unfold overlay
  rw [lookup_append, h]
  rfl

/-- A key absent from the overshadowing dict falls back to the base dict. -/
theorem overlay_lookup_base (base props : PropMap) (k : String)
    (h : props.lookup k = none) : (overlay base props).lookup k = base.lookup k := by
  unfold overlay
  rw [lookup_append, h]
  rfl

theorem lookup_map_modify {α : Type} (l : List (String × α)) (s : String) (f : α → α)
    (w : α) (h : l.lookup s = some w) :
    (l.map (fun p => if p.1 = s then (p.1, f p.2) else p)).lookup s = some (f w) := by
  induction l with
  | nil => simp [List.lookup] at h
  | cons p t ih =>
    rcases p with ⟨a, b⟩
    by_cases hak : a = s
    · subst hak
      simp only [List.lookup, beq_self_eq_true] at h
      simp only [List.map_cons]
      simp [List.lookup]
      simp at h
      exact h ▸ rfl
    · have hk : s ≠ a := fun hh => hak hh.symm
      simp only [List.map_cons, if_neg hak]
      simp only [List.lookup, beq_false_of_ne hk] at h ⊢
      exact ih h

theorem mutateResult_regexps (st : UserAgentParser) (s k v : String) :
    (mutateResult st s k v).user_agent_regexps = st.user_agent_regexps := rfl

theorem mutateResult_cache (st : UserAgentParser) (s k v : String) :
    (mutateResult st s k v).match_cache = st.match_cache := rfl

theorem mutateResult_lookup_self (st : UserAgentParser) (s k v : String) (props : PropMap)
    (h : st.user_agent_properties.lookup s = some props) :
    (mutateResult st s k v).user_agent_properties.lookup s = some (insertA props k v) :=
  lookup_map_modify st.user_agent_properties s (fun m => insertA m k v) props h

/-! ### The claims -/

/-- C1: for a loaded catalog and a User-Agent string with at least one
matching (nonempty-named) leaf entry and no stale cache entry, `__match`
selects a leaf whose compiled pattern matches and whose identifier length is
maximal among all matching leaves, and `query` returns that leaf's stored
resolved properties. -/
theorem c1_most_specific_selection (st : UserAgentParser) (ua : String) (props : PropMap)
    (hmatch : ∃ p ∈ st.user_agent_regexps, rxMatch p.2 ua.toList = true ∧ 0 < p.1.length)
    (hcache : st.match_cache.lookup ua = none)
    (hprops : st.user_agent_properties.lookup (matchScan st.user_agent_regexps ua) = some props) :
    (matchUA st ua).1 = matchScan st.user_agent_regexps ua ∧
      (∃ p ∈ st.user_agent_regexps,
        p.1 = matchScan st.user_agent_regexps ua ∧ rxMatch p.2 ua.toList = true) ∧
      (∀ p ∈ st.user_agent_regexps, rxMatch p.2 ua.toList = true →
        p.1.length ≤ (matchScan st.user_agent_regexps ua).length) ∧
      ∀ safe, (query st ua safe).1 = .ok props := by
  obtain ⟨q, hqmem, hqm, hqlen⟩ := hmatch
  have hge : ∀ p ∈ st.user_agent_regexps, rxMatch p.2 ua.toList = true →
      p.1.length ≤ (matchScan st.user_agent_regexps ua).length := by
    intro p hp hm
    exact scan_foldl_ge_match ua.toList st.user_agent_regexps "" p hp hm
  have hpos : 0 < (matchScan st.user_agent_regexps ua).length :=
    lt_of_lt_of_le hqlen (hge q hqmem hqm)
  have hne : matchScan st.user_agent_regexps ua ≠ "" := by
    intro hh
    rw [hh] at hpos
    simp at hpos
  have hmem : ∃ p ∈ st.user_agent_regexps,
      p.1 = matchScan st.user_agent_regexps ua ∧ rxMatch p.2 ua.toList = true := by
    rcases scan_foldl_mem ua.toList st.user_agent_regexps "" with heq | ⟨p, hp, hp1, hp2⟩
    · exact absurd heq hne
    · exact ⟨p, hp, hp1, hp2⟩
  have hm1 : (matchUA st ua).1 = matchScan st.user_agent_regexps ua := matchUA_miss st ua hcache
  refine ⟨hm1, hmem, hge, ?_⟩
  intro safe
  have hinit : st.user_agent_regexps.isEmpty = false := by
    rcases hl : st.user_agent_regexps with _ | ⟨x, xs⟩
    · rw [hl] at hqmem
      exact absurd hqmem (List.not_mem_nil q)
    · rfl
  rw [query_eq st ua safe hinit]
  simp only [hm1, matchUA_preserves_properties, if_neg hne, hprops]

/-- C1 witness: with leaf patterns `Mozilla*` and `Mozilla/5.0*Firefox*`
both matching `Mozilla/5.0 Firefox/1.0`, the longer identifier is selected
and its properties are returned. -/
theorem c1_witness :
    matchScan (load mozDb UserAgentParser.init).1.user_agent_regexps
        "Mozilla/5.0 Firefox/1.0" = "Mozilla/5.0*Firefox*" ∧
      ∀ safe, (query (load mozDb UserAgentParser.init).1 "Mozilla/5.0 Firefox/1.0" safe).1 =
        .ok [("browser", "Firefox"), ("version", "1.0")] :=
  ⟨by decide,
    (c1_most_specific_selection (load mozDb UserAgentParser.init).1 "Mozilla/5.0 Firefox/1.0"
      [("browser", "Firefox"), ("version", "1.0")]
      (by decide) (by decide) (by decide)).2.2.2⟩

/-- C2: resolving a section of the raw database yields the recursively
resolved parent properties (an empty dict when there is no `parent` key)
overlaid with the section's own raw properties; a key present in both takes
the child's value, a key only in the parent keeps the parent's value, and a
section without a parent resolves to exactly its raw properties. -/
theorem c2_resolution_overlay (db : Db) (s : String) (props : PropMap) (fuel : Nat)
    (h : db.lookup s = some props) :
    (props.lookup "parent" = none → getBrowserProps db s (fuel + 1) = .ok props) ∧
      (∀ par, props.lookup "parent" = some par →
        getBrowserProps db s (fuel + 1) =
          (getBrowserProps db par fuel).map (fun pp => overlay pp props)) ∧
      (∀ (base : PropMap) (k v : String), props.lookup k = some v →
        (overlay base props).lookup k = some v) ∧
      (∀ (base : PropMap) (k : String), props.lookup k = none →
        (overlay base props).lookup k = base.lookup k) := by
  refine ⟨?_, ?_, fun base k v hv => overlay_lookup_own base props k v hv,
    fun base k hk => overlay_lookup_base base props k hk⟩
  · intro hp
    simp only [getBrowserProps, h, hp]
    simp [overlay]
  · intro par hp
    simp only [getBrowserProps, h, hp]

/-- C2 witness: the child section of `famDb` resolves through its parent,
with the child's `b` overriding the parent's. -/
theorem c2_witness :
    famDb.lookup "Child" = some [("parent", "Root"), ("b", "3")] ∧
      getBrowserProps famDb "Child" 2 =
        (getBrowserProps famDb "Root" 1).map
          (fun pp => overlay pp [("parent", "Root"), ("b", "3")]) ∧
      getBrowserProps famDb "Child" 2 =
        .ok [("parent", "Root"), ("b", "3"), ("a", "1"), ("b", "2")] ∧
      (getBrowserProps famDb "Child" 2).map (fun m => m.lookup "b") = .ok (some "3") :=
  ⟨by decide,
    (c2_resolution_overlay famDb "Child" [("parent", "Root"), ("b", "3")] 1
      (by decide)).2.1 "Root" (by decide),
    by decide, by decide⟩

/-- C6: when no leaf pattern matches the (uncached) string on an initialized
parser, `query` returns the empty dict in lenient (`safe`) mode and raises
the unknown-user-agent error carrying the input string in strict mode. -/
theorem c6_lenient_strict (st : UserAgentParser) (ua : String)
    (hinit : st.user_agent_regexps.isEmpty = false)
    (hnomatch : ∀ p ∈ st.user_agent_regexps, rxMatch p.2 ua.toList = false)
    (hcache : st.match_cache.lookup ua = none) :
    (query st ua true).1 = .ok [] ∧
      (query st ua false).1 = .error (.unknownUserAgent ua) := by
  have hscan : matchScan st.user_agent_regexps ua = "" :=
    scan_foldl_no_match ua.toList st.user_agent_regexps "" hnomatch
  have hm : (matchUA st ua).1 = "" := by rw [matchUA_miss st ua hcache, hscan]
  constructor <;>
    · rw [query_eq st ua _ hinit]
      simp [hm]

/-- C6 witness: `totally-unknown-agent` against the loaded two-pattern
catalog. -/
theorem c6_witness :
    ((load mozDb UserAgentParser.init).1.user_agent_regexps.isEmpty = false ∧
      (∀ p ∈ (load mozDb UserAgentParser.init).1.user_agent_regexps,
        rxMatch p.2 "totally-unknown-agent".toList = false)) ∧
      (query (load mozDb UserAgentParser.init).1 "totally-unknown-agent" true).1 = .ok [] ∧
      (query (load mozDb UserAgentParser.init).1 "totally-unknown-agent" false).1 =
        .error (.unknownUserAgent "totally-unknown-agent") :=
  ⟨⟨by decide, by decide⟩,
    c6_lenient_strict (load mozDb UserAgentParser.init).1 "totally-unknown-agent"
      (by decide) (by decide) (by decide)⟩

/-- C8: after one load, matching an uncached string computes the fresh-scan
selection, records it (including the no-match sentinel) in the cache, a
second `__match` answers from the cache without touching the state, and a
repeated `query` returns the identical result and state. -/
theorem c8_idempotent_cached (st : UserAgentParser) (ua : String) (safe : Bool)
    (hcache : st.match_cache.lookup ua = none) :
    (matchUA st ua).1 = matchScan st.user_agent_regexps ua ∧
      (matchUA st ua).2.match_cache.lookup ua = some (matchScan st.user_agent_regexps ua) ∧
      matchUA (matchUA st ua).2 ua = ((matchUA st ua).1, (matchUA st ua).2) ∧
      query (query st ua safe).2 ua safe = query st ua safe := by
  have h1 := matchUA_miss st ua hcache
  exact ⟨h1, by rw [← h1]; exact matchUA_cached st ua, matchUA_idem st ua,
    query_idem st ua safe⟩

/-- C8 witness: two queries for the same string after one load. -/
theorem c8_witness :
    (load mozDb UserAgentParser.init).1.match_cache.lookup "Mozilla/5.0 Firefox/1.0" = none ∧
      (matchUA (load mozDb UserAgentParser.init).1 "Mozilla/5.0 Firefox/1.0").1 =
        matchScan (load mozDb UserAgentParser.init).1.user_agent_regexps
          "Mozilla/5.0 Firefox/1.0" ∧
      query (query (load mozDb UserAgentParser.init).1 "Mozilla/5.0 Firefox/1.0" true).2
          "Mozilla/5.0 Firefox/1.0" true =
        query (load mozDb UserAgentParser.init).1 "Mozilla/5.0 Firefox/1.0" true :=
  ⟨by decide,
    (c8_idempotent_cached (load mozDb UserAgentParser.init).1 "Mozilla/5.0 Firefox/1.0" true
      (by decide)).1,
    (c8_idempotent_cached (load mozDb UserAgentParser.init).1 "Mozilla/5.0 Firefox/1.0" true
      (by decide)).2.2.2⟩

/-- C9: on a freshly constructed parser, `query` raises the uninitialized
error for every string and both values of the lenient flag, leaving the
state untouched. -/
theorem c9_query_before_load (ua : String) (safe : Bool) :
    query UserAgentParser.init ua safe = (.error .uninit, UserAgentParser.init) := rfl

/-- C10: when a load completes without raising but inserts no leaf entry,
every query fails with the uninitialized error exactly as if load had never
been called, and so does listing the known user agents. -/
theorem c10_empty_load_uninitialized (db : Db)
    (_hdone : (load db UserAgentParser.init).2 = true)
    (hempty : (load db UserAgentParser.init).1.user_agent_regexps = []) :
    (∀ ua safe, query (load db UserAgentParser.init).1 ua safe =
        (.error .uninit, (load db UserAgentParser.init).1)) ∧
      get_all_user_agents (load db UserAgentParser.init).1 = .error .uninit := by
  constructor
  · intro ua safe
    simp [query, hempty]
  · simp [get_all_user_agents, hempty]

set_option maxRecDepth 400000 in
/-- C10 witness: the cyclic database's only leaf fails resolution, so the
load completes having inserted nothing. -/
theorem c10_witness :
    ((load threeCycDb UserAgentParser.init).2 = true ∧
      (load threeCycDb UserAgentParser.init).1.user_agent_regexps = []) ∧
      query (load threeCycDb UserAgentParser.init).1 "anything" true =
        (.error .uninit, (load threeCycDb UserAgentParser.init).1) ∧
      get_all_user_agents (load threeCycDb UserAgentParser.init).1 = .error .uninit :=
  ⟨⟨by decide, by decide⟩,
    (c10_empty_load_uninitialized threeCycDb (by decide) (by decide)).1 "anything" true,
    (c10_empty_load_uninitialized threeCycDb (by decide) (by decide)).2⟩

set_option maxRecDepth 400000 in
/-- C3 counterexample: after loading `oldDb`, querying once, and reloading
with `newDb` (which omits the old pattern), the old pattern still matches a
fresh string, the pre-reload cache entry is still present, and the
pre-reload cached selection with the old properties is still returned. -/
theorem c3_counterexample :
    (matchUA (load newDb (matchUA (load oldDb UserAgentParser.init).1 "OldOnlyAgent").2).1
        "OldOnlyAgent2").1 = "OldOnly*" ∧
      (load newDb
          (matchUA (load oldDb UserAgentParser.init).1 "OldOnlyAgent").2).1.match_cache.lookup
        "OldOnlyAgent" = some "OldOnly*" ∧
      (query (load newDb (matchUA (load oldDb UserAgentParser.init).1 "OldOnlyAgent").2).1
          "OldOnlyAgent" false).1 = .ok [("browser", "Old")] := by
  refine ⟨by decide, by decide, by decide⟩

/-- C3 amended: a second `load` merges the new database into the existing
catalog and leaves the match cache intact — it removes nothing: every
previously present compiled pattern is still present afterwards, and the
cache is exactly the pre-reload cache. -/
theorem c3_load_accumulates (cp : Db) (st : UserAgentParser) (s : String)
    (h : (st.user_agent_regexps.lookup s).isSome) :
    (load cp st).1.match_cache = st.match_cache ∧
      ((load cp st).1.user_agent_regexps.lookup s).isSome :=
  ⟨load_cache cp st, load_regexps_mono cp st s h⟩

set_option maxRecDepth 400000 in
/-- C3 witness: reloading with `newDb` keeps `oldDb`'s pattern and cache. -/
theorem c3_witness :
    ((load oldDb UserAgentParser.init).1.user_agent_regexps.lookup "OldOnly*").isSome = true ∧
      ((load newDb (load oldDb UserAgentParser.init).1).1.match_cache =
          (load oldDb UserAgentParser.init).1.match_cache ∧
        ((load newDb
            (load oldDb UserAgentParser.init).1).1.user_agent_regexps.lookup
          "OldOnly*").isSome = true) :=
  ⟨by decide,
    c3_load_accumulates newDb (load oldDb UserAgentParser.init).1 "OldOnly*" (by decide)⟩

/-- C4 counterexample: by Python `re` semantics the compiled pattern of the
section `a` also matches the string of `a` followed by a newline (`$` also
matches just before a trailing newline), and the compiled pattern of `?`
does not match the one-character newline string (`.` does not match a
newline) — while the claim's arbitrary-character full-string reading
(`specGlobMatch`) requires the opposite answers on both. -/
theorem c4_counterexample :
    sectionMatches "a" "a\n" = true ∧ specGlobMatch "a".toList "a\n".toList = false ∧
      sectionMatches "?" "\n" = false ∧ specGlobMatch "?".toList "\n".toList = true := by
  refine ⟨by decide, by decide, by decide, by decide⟩

/-- C4 amended: the compiled pattern is built by escaping `^$()[].-`,
mapping `?` to the one-character primitive and `*` to the zero-or-more
primitive, and anchoring both ends, where (Python `re` semantics) the
character primitives match any character except a newline and the end
anchor also accepts a single trailing newline; on section names inside the
modelled fragment and inputs free of newlines this coincides exactly with
the claim's arbitrary-character full-string semantics. -/
theorem c4_pattern_compilation (s input : String)
    (hp : ∀ c ∈ s.toList, sectionChar c = true) (hs : '\n' ∉ input.toList) :
    reCompile s.toList = some (s.toList.map charToRx) ∧
      sectionMatches s input = specGlobMatch s.toList input.toList := by
  have h1 := reCompile_maps s.toList hp
  refine ⟨h1, ?_⟩
  unfold sectionMatches
  rw [h1]
  exact rx_glob_equiv _ _ hs

/-- C4 witness: the spec's example pattern `Mozilla/5.0*Firefox/1.?.*`
matches `Mozilla/5.0 (X11) Firefox/1.5.0.5` and not
`Mozilla/4.0 Firefox/2.0`, and agrees with the glob semantics there. -/
theorem c4_witness :
    (∀ c ∈ "Mozilla/5.0*Firefox/1.?.*".toList, sectionChar c = true) ∧
      sectionMatches "Mozilla/5.0*Firefox/1.?.*" "Mozilla/5.0 (X11) Firefox/1.5.0.5" =
        specGlobMatch "Mozilla/5.0*Firefox/1.?.*".toList
          "Mozilla/5.0 (X11) Firefox/1.5.0.5".toList ∧
      sectionMatches "Mozilla/5.0*Firefox/1.?.*" "Mozilla/5.0 (X11) Firefox/1.5.0.5" = true ∧
      sectionMatches "Mozilla/5.0*Firefox/1.?.*" "Mozilla/4.0 Firefox/2.0" = false :=
  ⟨by decide,
    (c4_pattern_compilation "Mozilla/5.0*Firefox/1.?.*" "Mozilla/5.0 (X11) Firefox/1.5.0.5"
      (by decide) (by decide)).2,
    by decide, by decide⟩

set_option maxRecDepth 400000 in
/-- C5 counterexample: on the claim's two-section cycle, resolution at the
interpreter's recursion limit fails with the recursion-limit error
(`RecursionError`) — the only errors `__get_browser_props` can raise are
`NoSectionError` and `RecursionError`; no cyclic-inheritance error exists. -/
theorem c5_counterexample :
    getBrowserProps twoCycDb "A" recursionLimit = .error .recursionLimitExceeded :=
  (twoCyc_resolve recursionLimit).1

set_option maxRecDepth 400000 in
/-- C5 amended: resolution of a section on (or leading into) a parent cycle
exhausts every recursion budget and fails with the interpreter's
recursion-limit error rather than a dedicated cyclic-inheritance error;
`load` catches that per-section failure, skips the affected leaf, and
completes without hanging or crashing (here: inserting nothing). -/
theorem c5_cycle_recursion_limit :
    (∀ fuel, getBrowserProps twoCycDb "A" fuel = .error .recursionLimitExceeded) ∧
      (∀ fuel, getBrowserProps threeCycDb "A" fuel = .error .recursionLimitExceeded) ∧
      load threeCycDb UserAgentParser.init = (UserAgentParser.init, true) :=
  ⟨fun fuel => (twoCyc_resolve fuel).1, threeCyc_resolve_A, by decide⟩

set_option maxRecDepth 400000 in
/-- C7 counterexample: `query` returns the stored dict itself; a caller
write through the returned dict changes what the next identical query
returns. -/
theorem c7_counterexample :
    (query (load oldDb UserAgentParser.init).1 "OldOnlyAgent" false).1 =
        .ok [("browser", "Old")] ∧
      (query
          (mutateResult (query (load oldDb UserAgentParser.init).1 "OldOnlyAgent" false).2
            "OldOnly*" "browser" "Hacked")
          "OldOnlyAgent" false).1 = .ok [("browser", "Hacked")] ∧
      ([("browser", "Hacked")] : PropMap) ≠ [("browser", "Old")] := by
  refine ⟨by decide, by decide, by decide⟩

/-- C7 amended: `query` returns the catalog's stored properties dict itself
(line 124), not a defensive copy: a caller write through the returned dict
is a write into the catalog entry, and a later query for the same string
returns the mutated dict. -/
theorem c7_returned_dict_aliases_catalog (st : UserAgentParser) (ua s k v : String)
    (props : PropMap)
    (hinit : st.user_agent_regexps.isEmpty = false)
    (hsel : (matchUA st ua).1 = s) (hne : s ≠ "")
    (hprops : st.user_agent_properties.lookup s = some props) :
    (query st ua false).1 = .ok props ∧
      (query (mutateResult (query st ua false).2 s k v) ua false).1 =
        .ok (insertA props k v) := by
  have hstate : (query st ua false).2 = (matchUA st ua).2 := by
    rw [query_eq st ua false hinit]
  constructor
  · rw [query_eq st ua false hinit]
    simp only [hsel, if_neg hne, matchUA_preserves_properties, hprops]
  · set stM := mutateResult (query st ua false).2 s k v with hM
    have hMreg : stM.user_agent_regexps = st.user_agent_regexps := by
      rw [hM, mutateResult_regexps, hstate, matchUA_preserves_regexps]
    have hMinit : stM.user_agent_regexps.isEmpty = false := by rw [hMreg]; exact hinit
    have hMcache : stM.match_cache.lookup ua = some s := by
      rw [hM, mutateResult_cache, hstate, matchUA_cached, hsel]
    have hMmatch : matchUA stM ua = (s, stM) := matchUA_hit stM ua s hMcache
    have hMprops : stM.user_agent_properties.lookup s = some (insertA props k v) := by
      rw [hM]
      refine mutateResult_lookup_self _ s k v props ?_
      rw [hstate, matchUA_preserves_properties]
      exact hprops
    rw [query_eq stM ua false hMinit, hMmatch]
    simp only [if_neg hne, hMprops]

set_option maxRecDepth 400000 in
/-- C7 witness: writing `browser := Hacked` through the returned dict makes
the next identical query return the mutated dict. -/
theorem c7_witness :
    ((load oldDb UserAgentParser.init).1.user_agent_regexps.isEmpty = false ∧
      (matchUA (load oldDb UserAgentParser.init).1 "OldOnlyAgent").1 = "OldOnly*") ∧
      (query (load oldDb UserAgentParser.init).1 "OldOnlyAgent" false).1 =
          .ok [("browser", "Old")] ∧
        (query (mutateResult (query (load oldDb UserAgentParser.init).1 "OldOnlyAgent" false).2
            "OldOnly*" "browser" "Hacked") "OldOnlyAgent" false).1 =
          .ok (insertA [("browser", "Old")] "browser" "Hacked") :=
  ⟨⟨by decide, by decide⟩,
    c7_returned_dict_aliases_catalog (load oldDb UserAgentParser.init).1 "OldOnlyAgent"
      "OldOnly*" "browser" "Hacked" [("browser", "Old")]
      (by decide) (by decide) (by decide) (by decide)⟩

end Browscap
